import Mathlib

set_option maxRecDepth 40000

/-!
Verification of the Stock-Profit-Analyzer core against its design spec.

The two components under study are `StockAnalyzer.find_optimal_trade`
(the bounded maximum-profit scan) and `StockAnalyzer.get_stock_data`
(the cached time-series store) from `src/stock_profit_analyzer.py`.

Shallow embedding conventions:
  * calendar dates are natural numbers (the data model has day granularity,
    no time component);
  * prices are exact rationals (the data model calls them positive decimals);
  * wall-clock timestamps are integers (hours), so that
    `now - last_refreshed < cache_hours` is the exact Python comparison
    on (possibly negative) time differences;
  * a pandas DataFrame of Date/Price rows is a `List PricePoint` in row
    order; a row that may have a missing Close is a `RawRow` with an
    `Option` price;
  * the on-disk CSV cache directory is a map from ticker strings to an
    optional (file modification time, stored series) pair;
  * `fetch_fn` (the yfinance call: ticker lookup, info check, history) is a
    function returning `none` on any provider-level failure (network error,
    unknown symbol, empty history) and `some rows` on success;
  * Python returning `None` / an empty DataFrame becomes `Option` / `[]`.
-/

/-- A single row of the price table: a calendar date and a positive price. -/
structure PricePoint where
  date : Nat
  price : Rat
deriving DecidableEq, Repr

/-- The dictionary returned by `find_optimal_trade` on success
(the `period_df` entry of the Python dict is a slice of the input and is
not part of the trade result proper). -/
structure TradeWindow where
  buy_date : Nat
  sell_date : Nat
  buy_price : Rat
  sell_price : Rat
  profit : Rat
  profit_percent : Rat
deriving DecidableEq, Repr

/-- The loop state of the single-pass scan in `find_optimal_trade`:
`min_price` together with `potential_buy_date` (absent before the first
iteration, where Python holds `float('inf')` and an unset variable),
`max_profit`, and the recorded best trade
(`buy_date`, `sell_date`, `buy_price`, `sell_price`; Python initializes
`buy_date = sell_date = None`, which we render as `none`). -/
structure ScanState where
  minp : Option (Rat × Nat)
  max_profit : Rat
  best : Option (Nat × Nat × Rat × Rat)
deriving DecidableEq, Repr

/-- One iteration of the `for _, row in period_df.iterrows()` loop of
`find_optimal_trade`: first update the running minimum (any price is below
`float('inf')`), then compare `current_profit = current_price - min_price`
against `max_profit` and record a new best strictly-greater trade. -/
def scanStep (st : ScanState) (p : PricePoint) : ScanState :=
  let mp : Rat × Nat :=
    match st.minp with
    | none => (p.price, p.date)
    | some (m, d) => if p.price < m then (p.price, p.date) else (m, d)
  let current_profit : Rat := p.price - mp.1
  if st.max_profit < current_profit then
    { minp := some mp, max_profit := current_profit,
      best := some (mp.2, p.date, mp.1, p.price) }
  else
    { minp := some mp, max_profit := st.max_profit, best := st.best }

/-- The loop-entry state of `find_optimal_trade`:
`min_price = inf`, `max_profit = 0`, `buy_date = sell_date = None`. -/
def initState : ScanState :=
  { minp := none, max_profit := 0, best := none }

/-- Run the scan loop over the filtered period rows in order. -/
def runScan (period : List PricePoint) : ScanState :=
  period.foldl scanStep initState

/-- The filter mask `(df['Date'] >= start_date) & (df['Date'] <= end_date)`. -/
def inRange (s e : Nat) (p : PricePoint) : Bool :=
  decide (s ≤ p.date) && decide (p.date ≤ e)

/-- `pd.to_datetime(x).dt.date` applied to a calendar-date value: parsing a
calendar date to a midnight timestamp and taking its date component returns
the same calendar date, so on the day-granularity data model this is the
identity on the date. -/
def dt_date (d : Nat) : Nat := d

/-- The in-place column assignment
`df['Date'] = pd.to_datetime(df['Date']).dt.date` at the top of
`find_optimal_trade`, as the series it leaves behind. -/
def mutateDates (df : List PricePoint) : List PricePoint :=
  df.map (fun p => { date := dt_date p.date, price := p.price })

/-- The body of `find_optimal_trade` from the `len(period_df) < 2` test on,
as a function of the already-filtered period rows: give up (`None`) below
2 rows, run the single-pass scan, give up (`None`) on `max_profit <= 0`,
and otherwise return the trade dictionary (on the unreachable path where
`max_profit > 0` but `buy_date` was never set, Python would build a dict of
`None` dates; we render that path as `none`, and prove below that it is
dead: a positive `max_profit` always comes with a recorded best trade). -/
def find_core (period : List PricePoint) : Option TradeWindow :=
  if period.length < 2 then none
  else
    let st := runScan period
    if st.max_profit ≤ 0 then none
    else
      match st.best with
      | some (bd, sd, bp, sp) =>
        some { buy_date := bd, sell_date := sd, buy_price := bp, sell_price := sp,
               profit := st.max_profit,
               profit_percent := st.max_profit / bp * 100 }
      | none => none

/-- `StockAnalyzer.find_optimal_trade(df, start_date, end_date)`:
convert the Date column in place, filter to the closed range, scan. -/
def find_optimal_trade (df : List PricePoint) (s e : Nat) : Option TradeWindow :=
  find_core ((mutateDates df).filter (fun p => inRange s e p))

/-- The full observable behaviour of a call to `find_optimal_trade`:
the returned value together with the caller's DataFrame after the call
(the function's only write to its input is the Date-column assignment). -/
def find_optimal_trade_call (df : List PricePoint) (s e : Nat) :
    Option TradeWindow × List PricePoint :=
  (find_optimal_trade df s e, mutateDates df)

/-- The acceptance test of one iteration of `get_date_input`: a parsed date
is accepted exactly when it is neither before `min_date` nor after
`max_date`; otherwise the loop prints a message and re-prompts. -/
def date_accepted (d min_date max_date : Nat) : Bool :=
  !(decide (d < min_date)) && !(decide (max_date < d))

/-- `StockAnalyzer.validate_ticker`: rejects an empty / whitespace-only
string, then a string longer than 10 characters, and accepts the rest,
returning the flag with its message. -/
def validate_ticker (ticker : String) : Bool × String :=
  if ticker = "" ∨ ticker.trim.length = 0 then (false, "Ticker cannot be empty")
  else if 10 < ticker.length then (false, "Ticker too long")
  else (true, "Valid ticker")

/-- A raw history row as the provider hands it over: a date and a Close
price that may be missing (`NaN`). -/
structure RawRow where
  date : Nat
  close : Option Rat
deriving DecidableEq, Repr

/-- `df.dropna()` on the two-column Date/Close frame: keep exactly the rows
whose price is present. -/
def dropna (rows : List RawRow) : List PricePoint :=
  rows.filterMap (fun r => r.close.map (fun c => PricePoint.mk r.date c))

/-- `df = df[df['Price'] > 0]`: keep the strictly positive prices. -/
def posFilter (l : List PricePoint) : List PricePoint :=
  l.filter (fun p => decide (0 < p.price))

/-- `df.sort_values('Date')`: sort the rows ascending by date. -/
def sortByDate (l : List PricePoint) : List PricePoint :=
  List.insertionSort (fun p q => p.date ≤ q.date) l
/-- Date order is total on price points. -/
instance : IsTotal PricePoint (fun p q => p.date ≤ q.date) :=
  ⟨fun p q => Nat.le_total p.date q.date⟩

/-- Date order is transitive on price points. -/
instance : IsTrans PricePoint (fun p q => p.date ≤ q.date) :=
  ⟨fun _ _ _ h1 h2 => Nat.le_trans h1 h2⟩

/-- The cache directory: for each ticker, optionally a cache file with its
modification time and the stored series. -/
def CacheMap : Type := String → Option (Int × List PricePoint)

/-- What a call to `get_stock_data` does, observably: the returned frame,
the cache directory afterwards, and whether the provider was contacted. -/
structure GetOutcome where
  series : List PricePoint
  cache2 : CacheMap
  fetchInvoked : Bool

/-- `StockAnalyzer.get_stock_data(ticker, use_cache, cache_hours)` over an
explicit cache state, wall clock and provider:
normalize the ticker (`upper().strip()`), validate it (empty frame on
failure, no fetch), serve a cache entry younger than `cache_hours`
without fetching, and otherwise fetch: on provider failure return the
empty frame; on success drop missing and non-positive prices, return the
empty frame if nothing is left (writing no cache file), else sort by date,
write the cache file (skipped silently when persistence fails
(`persist_ok = false`)) and return the frame. -/
def get_stock_data (ticker0 : String) (use_cache : Bool) (cache_hours : Int)
    (cache : CacheMap) (now : Int) (fetch : String → Option (List RawRow))
    (persist_ok : Bool) : GetOutcome :=
  let ticker := ticker0.toUpper.trim
  if (validate_ticker ticker).1 = false then ⟨[], cache, false⟩
  else
    let cachedFresh : Option (List PricePoint) :=
      if use_cache then
        match cache ticker with
        | some (modTime, stored) =>
          if now - modTime < cache_hours then some stored else none
        | none => none
      else none
    match cachedFresh with
    | some stored => ⟨stored, cache, false⟩
    | none =>
      match fetch ticker with
      | none => ⟨[], cache, true⟩
      | some rows =>
        let cleaned := posFilter (dropna rows)
        if cleaned = [] then ⟨[], cache, true⟩
        else
          let df := sortByDate cleaned
          let cache3 : CacheMap :=
            if persist_ok then (fun t => if t = ticker then some (now, df) else cache t)
            else cache
          ⟨df, cache3, true⟩

/-- The spec's classic example series `[(d1,7),(d2,1),(d3,5),(d4,3),(d5,6),(d6,4)]`. -/
def classicSeries : List PricePoint :=
  [⟨1, 7⟩, ⟨2, 1⟩, ⟨3, 5⟩, ⟨4, 3⟩, ⟨5, 6⟩, ⟨6, 4⟩]

/-- The spec's tie-break example series `[(d1,10),(d2,15),(d3,10),(d4,15)]`. -/
def tieSeries : List PricePoint :=
  [⟨1, 10⟩, ⟨2, 15⟩, ⟨3, 10⟩, ⟨4, 15⟩]

/-- The spec's monotonic-decline example series `[(d1,20),(d2,15),(d3,10)]`. -/
def declineSeries : List PricePoint :=
  [⟨1, 20⟩, ⟨2, 15⟩, ⟨3, 10⟩]

/-- An empty cache directory. -/
def emptyCache : CacheMap := fun _ => none

/-- A sample stored series for cache scenarios. -/
def sampleSeries : List PricePoint := [⟨1, 10⟩, ⟨2, 12⟩]

/-- A cache directory holding one entry for AAPL written at time 0. -/
def aaplCache : CacheMap :=
  fun t => if t = "AAPL" then some (0, sampleSeries) else none

/-- A provider that always fails. -/
def failFetch : String → Option (List RawRow) := fun _ => none

/-- A provider returning two rows that share a date. -/
def dupFetch : String → Option (List RawRow) :=
  fun _ => some [⟨1, some 5⟩, ⟨1, some 6⟩]

/-- A provider returning a small healthy history. -/
def okFetch : String → Option (List RawRow) :=
  fun _ => some [⟨2, some 12⟩, ⟨1, some 10⟩, ⟨3, some 11⟩]

/-! ### Basic facts about the embedding -/

/-- The Date-column conversion leaves a day-granularity series unchanged. -/
theorem mutateDates_eq (df : List PricePoint) : mutateDates df = df := by
  unfold mutateDates dt_date
  have h : (fun p : PricePoint => PricePoint.mk p.date p.price) = id := by
    funext p
    rfl
  rw [h, List.map_id]

/-- `find_optimal_trade` is the core scan on the filtered input rows. -/
theorem find_eq_core (df : List PricePoint) (s e : Nat) :
    find_optimal_trade df s e = find_core (df.filter (fun p => inRange s e p)) := by
  unfold find_optimal_trade
  rw [mutateDates_eq]

/-- Membership in the closed-range filter, unfolded. -/
theorem mem_inRange_filter {df : List PricePoint} {s e : Nat} {p : PricePoint} :
    p ∈ df.filter (fun p => inRange s e p) ↔ p ∈ df ∧ s ≤ p.date ∧ p.date ≤ e := by
  unfold inRange
  simp [List.mem_filter]

/-! ### The scan-loop invariant -/

/-- Invariant of the `find_optimal_trade` loop after processing the prefix
`l` of the period rows: the running minimum is the least price seen, its
recorded date is the date of an occurrence of that minimum; `max_profit`
is a nonnegative upper bound on every chronological pair profit of `l`;
and a positive `max_profit` comes with a recorded best trade that attains
it at the earliest possible sell position. -/
def ScanInv (l : List PricePoint) (st : ScanState) : Prop :=
  (∃ m dm, st.minp = some (m, dm) ∧ (∀ p ∈ l, m ≤ p.price) ∧
    ∃ i, ∃ hi : i < l.length, (l[i]).price = m ∧ (l[i]).date = dm) ∧
  0 ≤ st.max_profit ∧
  (∀ i j, ∀ hi : i < l.length, ∀ hj : j < l.length, i ≤ j →
    (l[j]).price - (l[i]).price ≤ st.max_profit) ∧
  (0 < st.max_profit →
    ∃ i j, ∃ hi : i < l.length, ∃ hj : j < l.length, i ≤ j ∧
      st.best = some ((l[i]).date, (l[j]).date, (l[i]).price, (l[j]).price) ∧
      (l[j]).price - (l[i]).price = st.max_profit ∧
      ∀ i2 j2, ∀ hi2 : i2 < l.length, ∀ hj2 : j2 < l.length, i2 ≤ j2 →
        st.max_profit ≤ (l[j2]).price - (l[i2]).price → j ≤ j2)

/-- The invariant holds after the first iteration. -/
theorem scanInv_single (a : PricePoint) : ScanInv [a] (scanStep initState a) := by
  have h : scanStep initState a = ⟨some (a.price, a.date), 0, none⟩ := by
    simp [scanStep, initState]
  rw [h]
  refine ⟨⟨a.price, a.date, rfl, ?_, 0, Nat.one_pos, rfl, rfl⟩, le_refl 0, ?_, ?_⟩
  · intro p hp
    rw [List.mem_singleton] at hp
    rw [hp]
  · intro i j hi hj _
    have hlen : ([a] : List PricePoint).length = 1 := rfl
    have hi0 : i = 0 := by omega
    have hj0 : j = 0 := by omega
    subst hi0
    subst hj0
    simp
  · intro h0
    exact absurd h0 (lt_irrefl 0)

/-- Extending the pair-profit upper bound by one appended row: `m2` bounds
every price of `l` and of `a` from below, `M` bounds the old pair profits,
and the new bound `M2` dominates both `M` and the profit of selling `a`
against the running minimum. -/
theorem pairBound_extend {l : List PricePoint} {a : PricePoint} {m2 M M2 : Rat}
    (hle : ∀ p ∈ l, m2 ≤ p.price) (hm2a : m2 ≤ a.price)
    (hub : ∀ i j, ∀ hi : i < l.length, ∀ hj : j < l.length, i ≤ j →
      (l[j]).price - (l[i]).price ≤ M)
    (hMM2 : M ≤ M2) (hcp : a.price - m2 ≤ M2) :
    ∀ i j, ∀ hi : i < (l ++ [a]).length, ∀ hj : j < (l ++ [a]).length, i ≤ j →
      ((l ++ [a])[j]).price - ((l ++ [a])[i]).price ≤ M2 := by
  intro i j hi hj hij
  have hlen : (l ++ [a]).length = l.length + 1 := by simp
  by_cases hjl : j < l.length
  · have hil : i < l.length := lt_of_le_of_lt hij hjl
    rw [List.getElem_append_left hjl, List.getElem_append_left hil]
    exact le_trans (hub i j hil hjl hij) hMM2
  · have hjeq : j = l.length := by omega
    subst hjeq
    simp only [List.getElem_concat_length]
    by_cases hil : i < l.length
    · rw [List.getElem_append_left hil]
      have hm := hle (l[i]) (List.getElem_mem hil)
      linarith
    · have hieq : i = l.length := by omega
      subst hieq
      simp only [List.getElem_concat_length]
      linarith

/-- A recorded best trade over `l` remains a recorded best trade with the
same earliest-sell property when one more row is appended, provided the
maximal profit does not change. -/
theorem bestLift {l : List PricePoint} (a : PricePoint)
    {b : Option (Nat × Nat × Rat × Rat)} {M : Rat}
    (hb : ∃ i j, ∃ hi : i < l.length, ∃ hj : j < l.length, i ≤ j ∧
      b = some ((l[i]).date, (l[j]).date, (l[i]).price, (l[j]).price) ∧
      (l[j]).price - (l[i]).price = M ∧
      ∀ i2 j2, ∀ hi2 : i2 < l.length, ∀ hj2 : j2 < l.length, i2 ≤ j2 →
        M ≤ (l[j2]).price - (l[i2]).price → j ≤ j2) :
    ∃ i j, ∃ hi : i < (l ++ [a]).length, ∃ hj : j < (l ++ [a]).length, i ≤ j ∧
      b = some  (((l ++ [a])[i]).date, ((l ++ [a])[j]).date,
                 ((l ++ [a])[i]).price, ((l ++ [a])[j]).price) ∧
      ((l ++ [a])[j]).price - ((l ++ [a])[i]).price = M ∧
      ∀ i2 j2, ∀ hi2 : i2 < (l ++ [a]).length, ∀ hj2 : j2 < (l ++ [a]).length, i2 ≤ j2 →
        M ≤ ((l ++ [a])[j2]).price - ((l ++ [a])[i2]).price → j ≤ j2 := by
  obtain ⟨i, j, hi, hj, hij, hbeq, hprof, hmin⟩ := hb
  have hlen : (l ++ [a]).length = l.length + 1 := by simp
  have hi2 : i < (l ++ [a]).length := by omega
  have hj2 : j < (l ++ [a]).length := by omega
  refine ⟨i, j, hi2, hj2, hij, ?_, ?_, ?_⟩
  · rw [List.getElem_append_left hi, List.getElem_append_left hj]
    exact hbeq
  · rw [List.getElem_append_left hi, List.getElem_append_left hj]
    exact hprof
  · intro i3 j3 hi3 hj3 hij3 hM
    by_cases hj3l : j3 < l.length
    · have hi3l : i3 < l.length := lt_of_le_of_lt hij3 hj3l
      rw [List.getElem_append_left hj3l, List.getElem_append_left hi3l] at hM
      exact hmin i3 j3 hi3l hj3l hij3 hM
    · omega

/-- One step of the scan preserves the invariant. -/
theorem scanInv_step {l : List PricePoint} {st : ScanState} (a : PricePoint)
    (h : ScanInv l st) : ScanInv (l ++ [a]) (scanStep st a) := by
  obtain ⟨⟨m, dm, hmp, hmle, i0, hi0, hp0, hd0⟩, hnn, hub, hbest⟩ := h
  have hlen : (l ++ [a]).length = l.length + 1 := by simp
  by_cases hm : a.price < m
  · -- a strictly new running minimum; the profit against it is 0,
    -- so the best trade is unchanged
    have hs : scanStep st a = ⟨some (a.price, a.date), st.max_profit, st.best⟩ := by
      have hno : ¬ st.max_profit < 0 := not_lt.mpr hnn
      simp [scanStep, hmp, hm, hno]
    rw [hs]
    have hle2 : ∀ p ∈ l ++ [a], a.price ≤ p.price := by
      intro p hp
      rcases List.mem_append.mp hp with hpl | hpa
      · exact le_trans (le_of_lt hm) (hmle p hpl)
      · rw [List.mem_singleton] at hpa
        rw [hpa]
    refine ⟨⟨a.price, a.date, rfl, hle2, l.length, by omega, ?_, ?_⟩, hnn, ?_, ?_⟩
    · simp only [List.getElem_concat_length]
    · simp only [List.getElem_concat_length]
    · refine pairBound_extend ?_ le_rfl hub le_rfl ?_
      · intro p hp
        exact le_trans (le_of_lt hm) (hmle p hp)
      · rw [sub_self]
        exact hnn
    · intro hpos
      exact bestLift a (hbest hpos)
  · -- the running minimum is unchanged
    have hmin2 : ∀ p ∈ l ++ [a], m ≤ p.price := by
      intro p hp
      rcases List.mem_append.mp hp with hpl | hpa
      · exact hmle p hpl
      · rw [List.mem_singleton] at hpa
        rw [hpa]
        exact not_lt.mp hm
    have hwit : ∃ i, ∃ hi : i < (l ++ [a]).length,
        ((l ++ [a])[i]).price = m ∧ ((l ++ [a])[i]).date = dm := by
      refine ⟨i0, by omega, ?_, ?_⟩
      · rw [List.getElem_append_left hi0]
        exact hp0
      · rw [List.getElem_append_left hi0]
        exact hd0
    by_cases hup : st.max_profit < a.price - m
    · -- a new best trade: sell `a` against the current minimum
      have hs : scanStep st a =
          ⟨some (m, dm), a.price - m, some (dm, a.date, m, a.price)⟩ := by
        simp [scanStep, hmp, hm, hup]
      rw [hs]
      obtain ⟨i1, hi1, hp1, hd1⟩ := hwit
      refine ⟨⟨m, dm, rfl, hmin2, i1, hi1, hp1, hd1⟩, ?_, ?_, ?_⟩
      · exact le_of_lt (lt_of_le_of_lt hnn hup)
      · exact pairBound_extend hmle (not_lt.mp hm) hub (le_of_lt hup) le_rfl
      · intro _
        refine ⟨i1, l.length, hi1, by omega, by omega, ?_, ?_, ?_⟩
        · simp only [List.getElem_concat_length]
          rw [hp1, hd1]
        · simp only [List.getElem_concat_length]
          rw [hp1]
        · intro i2 j2 hi2 hj2 hij2 hM
          by_cases hj2l : j2 < l.length
          · exfalso
            have hi2l : i2 < l.length := lt_of_le_of_lt hij2 hj2l
            rw [List.getElem_append_left hj2l, List.getElem_append_left hi2l] at hM
            have hM2 : a.price - m ≤ (l[j2]).price - (l[i2]).price := hM
            have := hub i2 j2 hi2l hj2l hij2
            linarith
          · omega
    · -- no better trade today; everything is carried over
      have hs : scanStep st a = ⟨some (m, dm), st.max_profit, st.best⟩ := by
        simp [scanStep, hmp, hm, hup]
      rw [hs]
      obtain ⟨i1, hi1, hp1, hd1⟩ := hwit
      refine ⟨⟨m, dm, rfl, hmin2, i1, hi1, hp1, hd1⟩, hnn, ?_, ?_⟩
      · exact pairBound_extend hmle (not_lt.mp hm) hub le_rfl (not_lt.mp hup)
      · intro hpos
        exact bestLift a (hbest hpos)

/-- The invariant holds after the whole scan of a nonempty period. -/
theorem scanInv_runScan (l : List PricePoint) (hne : l ≠ []) :
    ScanInv l (runScan l) := by
  induction l using List.reverseRecOn with
  | nil => exact absurd rfl hne
  | append_singleton l a ih =>
    rcases eq_or_ne l [] with hl | hl
    · subst hl
      have hr : runScan ([] ++ [a]) = scanStep initState a := by
        simp [runScan]
      rw [hr, List.nil_append]
      exact scanInv_single a
    · have hr : runScan (l ++ [a]) = scanStep (runScan l) a := by
        simp [runScan, List.foldl_append]
      rw [hr]
      exact scanInv_step a (ih hl)

/-- In a strictly date-sorted list, positions are monotone in dates. -/
theorem pairwise_date_mono {l : List PricePoint}
    (hs : l.Pairwise (fun p q => p.date < q.date))
    {i j : Nat} (hi : i < l.length) (hj : j < l.length) (hij : i ≤ j) :
    (l[i]).date ≤ (l[j]).date := by
  rcases eq_or_lt_of_le hij with h | h
  · subst h
    exact le_refl _
  · exact le_of_lt (List.pairwise_iff_getElem.mp hs i j hi hj h)

/-- In a strictly date-sorted list, a chronological pair of members sits at
a chronological pair of positions. -/
theorem mem_pair_to_index {l : List PricePoint}
    (hs : l.Pairwise (fun p q => p.date < q.date)) {p q : PricePoint}
    (hp : p ∈ l) (hq : q ∈ l) (hd : p.date ≤ q.date) :
    ∃ i j, ∃ hi : i < l.length, ∃ hj : j < l.length, i ≤ j ∧ l[i] = p ∧ l[j] = q := by
  obtain ⟨i, hi, hpi⟩ := List.getElem_of_mem hp
  obtain ⟨j, hj, hqj⟩ := List.getElem_of_mem hq
  by_cases hij : i ≤ j
  · exact ⟨i, j, hi, hj, hij, hpi, hqj⟩
  · exfalso
    have hji : j < i := by omega
    have hlt := List.pairwise_iff_getElem.mp hs j i hj hi hji
    rw [hpi, hqj] at hlt
    omega

/-- Inverting a successful `find_core`: the period has at least two rows,
the scan found a positive maximal profit, and the returned window reads off
a chronological pair of period positions attaining that profit at the
earliest possible sell position. -/
theorem find_core_some {period : List PricePoint} {tw : TradeWindow}
    (h : find_core period = some tw) :
    2 ≤ period.length ∧ 0 < (runScan period).max_profit ∧
    ∃ i j, ∃ hi : i < period.length, ∃ hj : j < period.length, i ≤ j ∧
      tw.buy_date = (period[i]).date ∧ tw.sell_date = (period[j]).date ∧
      tw.buy_price = (period[i]).price ∧ tw.sell_price = (period[j]).price ∧
      tw.profit = (runScan period).max_profit ∧
      (period[j]).price - (period[i]).price = (runScan period).max_profit ∧
      ∀ i2 j2, ∀ hi2 : i2 < period.length, ∀ hj2 : j2 < period.length, i2 ≤ j2 →
        (runScan period).max_profit ≤ (period[j2]).price - (period[i2]).price → j ≤ j2 := by
  simp only [find_core] at h
  by_cases hlen : period.length < 2
  · rw [if_pos hlen] at h
    exact absurd h (by simp)
  · rw [if_neg hlen] at h
    by_cases hmp : (runScan period).max_profit ≤ 0
    · rw [if_pos hmp] at h
      exact absurd h (by simp)
    · rw [if_neg hmp] at h
      have hne : period ≠ [] := by
        intro h0
        rw [h0] at hlen
        simp at hlen
      obtain ⟨_, _, _, hbest⟩ := scanInv_runScan period hne
      have hpos : 0 < (runScan period).max_profit := not_le.mp hmp
      obtain ⟨i, j, hi, hj, hij, hbeq, hprof, hminimal⟩ := hbest hpos
      rw [hbeq] at h
      have htw := Option.some.inj h
      subst htw
      exact ⟨by omega, hpos, i, j, hi, hj, hij, rfl, rfl, rfl, rfl, rfl, hprof, hminimal⟩

/-- `find_core` returns `None` exactly on a short period or a nonpositive
scan maximum. -/
theorem find_core_none_iff (period : List PricePoint) :
    find_core period = none ↔
      (period.length < 2 ∨ (runScan period).max_profit ≤ 0) := by
  constructor
  · intro h
    by_cases hlen : period.length < 2
    · exact Or.inl hlen
    · by_cases hmp : (runScan period).max_profit ≤ 0
      · exact Or.inr hmp
      · exfalso
        have hne : period ≠ [] := by
          intro h0
          rw [h0] at hlen
          simp at hlen
        obtain ⟨_, _, _, hbest⟩ := scanInv_runScan period hne
        obtain ⟨i, j, hi, hj, hij, hbeq, hprof, hminimal⟩ := hbest (not_le.mp hmp)
        simp only [find_core] at h
        rw [if_neg hlen, if_neg hmp, hbeq] at h
        exact absurd h (by simp)
  · intro h
    simp only [find_core]
    rcases h with h | h
    · rw [if_pos h]
    · by_cases hlen : period.length < 2
      · rw [if_pos hlen]
      · rw [if_neg hlen, if_pos h]

/-! ### Claims about the profit scan -/

/-- Claim C1: For a date-sorted positive-price series and a range whose
candidate subset has at least two rows and some chronologically ordered
pair with a strictly positive price difference, `find_optimal_trade`
returns a trade window whose profit is the maximum of
`sell_price - buy_price` over all chronological pairs of subset rows. -/
theorem findOptimalTrade_profit_eq_max (df : List PricePoint) (s e : Nat)
    (hsorted : df.Pairwise (fun p q => p.date < q.date))
    (hposprice : ∀ p ∈ df, 0 < p.price)
    (hse : s ≤ e)
    (hlen : 2 ≤ (df.filter (fun p => inRange s e p)).length)
    (hpair : ∃ p q, p ∈ df.filter (fun p => inRange s e p) ∧
        q ∈ df.filter (fun p => inRange s e p) ∧ p.date ≤ q.date ∧
        0 < q.price - p.price) :
    ∃ tw : TradeWindow, find_optimal_trade df s e = some tw ∧
      (∀ p q, p ∈ df.filter (fun p => inRange s e p) →
        q ∈ df.filter (fun p => inRange s e p) → p.date ≤ q.date →
        q.price - p.price ≤ tw.profit) ∧
      (∃ p q, p ∈ df.filter (fun p => inRange s e p) ∧
        q ∈ df.filter (fun p => inRange s e p) ∧ p.date ≤ q.date ∧
        q.price - p.price = tw.profit) := by
  set period := df.filter (fun p => inRange s e p) with hperiod
  have hsp : period.Pairwise (fun p q => p.date < q.date) :=
    List.Pairwise.sublist (List.filter_sublist df) hsorted
  have hne : period ≠ [] := by
    intro h0
    rw [h0] at hlen
    simp at hlen
  obtain ⟨hminI, hnn, hub, hbest⟩ := scanInv_runScan period hne
  obtain ⟨p1, q1, hp1, hq1, hd1, hpr1⟩ := hpair
  obtain ⟨i1, j1, hi1, hj1, hij1, hpi1, hqj1⟩ := mem_pair_to_index hsp hp1 hq1 hd1
  have hposp : 0 < (runScan period).max_profit := by
    have hb := hub i1 j1 hi1 hj1 hij1
    rw [hpi1, hqj1] at hb
    linarith
  obtain ⟨i, j, hi, hj, hij, hbeq, hprofEq, hminimal⟩ := hbest hposp
  refine ⟨⟨(period[i]).date, (period[j]).date, (period[i]).price, (period[j]).price,
          (runScan period).max_profit,
          (runScan period).max_profit / (period[i]).price * 100⟩, ?_, ?_, ?_⟩
  · rw [find_eq_core, ← hperiod]
    simp only [find_core]
    rw [if_neg (by omega), if_neg (not_le.mpr hposp), hbeq]
  · intro p2 q2 hp2 hq2 hd2
    obtain ⟨i2, j2, hi2, hj2, hij2, hpi2, hqj2⟩ := mem_pair_to_index hsp hp2 hq2 hd2
    have hb := hub i2 j2 hi2 hj2 hij2
    rw [hpi2, hqj2] at hb
    exact hb
  · exact ⟨period[i], period[j], List.getElem_mem hi, List.getElem_mem hj,
      pairwise_date_mono hsp hi hj hij, hprofEq⟩

/-- Witness for claim C1: The classic example series: over the full range the
scan buys at date 2 (price 1) and sells at date 5 (price 6) for profit 5;
restricted to `[3,6]` it buys at date 4 (price 3) and sells at date 5
(price 6) for profit 3; and the general theorem applies to it. -/
theorem findOptimalTrade_profit_eq_max_witness :
    find_optimal_trade classicSeries 1 6 = some ⟨2, 5, 1, 6, 5, 500⟩ ∧
    find_optimal_trade classicSeries 3 6 = some ⟨4, 5, 3, 6, 3, 100⟩ ∧
    (∃ tw : TradeWindow, find_optimal_trade classicSeries 1 6 = some tw ∧
      (∀ p q, p ∈ classicSeries.filter (fun p => inRange 1 6 p) →
        q ∈ classicSeries.filter (fun p => inRange 1 6 p) → p.date ≤ q.date →
        q.price - p.price ≤ tw.profit) ∧
      (∃ p q, p ∈ classicSeries.filter (fun p => inRange 1 6 p) ∧
        q ∈ classicSeries.filter (fun p => inRange 1 6 p) ∧ p.date ≤ q.date ∧
        q.price - p.price = tw.profit)) :=
  ⟨by with_unfolding_all decide, by with_unfolding_all decide,
   findOptimalTrade_profit_eq_max classicSeries 1 6
     (by with_unfolding_all decide) (by with_unfolding_all decide)
     (by with_unfolding_all decide) (by with_unfolding_all decide)
     ⟨⟨2, 1⟩, ⟨5, 6⟩, by with_unfolding_all decide, by with_unfolding_all decide,
      by with_unfolding_all decide, by with_unfolding_all decide⟩⟩

/-- Claim C2: On a date-sorted series, a returned trade window's sell date
is at most the sell date of every chronological pair attaining the same
profit: an earlier recorded best is never displaced by an equal-value
later pair. -/
theorem findOptimalTrade_tie_break (df : List PricePoint) (s e : Nat)
    (tw : TradeWindow)
    (hsorted : df.Pairwise (fun p q => p.date < q.date))
    (h : find_optimal_trade df s e = some tw) :
    ∀ p q, p ∈ df.filter (fun p => inRange s e p) →
      q ∈ df.filter (fun p => inRange s e p) → p.date ≤ q.date →
      q.price - p.price = tw.profit → tw.sell_date ≤ q.date := by
  rw [find_eq_core] at h
  set period := df.filter (fun p => inRange s e p) with hperiod
  have hsp : period.Pairwise (fun p q => p.date < q.date) :=
    List.Pairwise.sublist (List.filter_sublist df) hsorted
  obtain ⟨hlen2, hposp, i, j, hi, hj, hij, hbd, hsd, hbp, hsp2, hprofit, hattain,
          hminimal⟩ := find_core_some h
  intro p q hp hq hd hprof
  obtain ⟨i2, j2, hi2, hj2, hij2, hpi2, hqj2⟩ := mem_pair_to_index hsp hp hq hd
  have hge : (runScan period).max_profit ≤ (period[j2]).price - (period[i2]).price := by
    rw [hpi2, hqj2, hprof, hprofit]
  have hjj2 := hminimal i2 j2 hi2 hj2 hij2 hge
  have hdates := pairwise_date_mono hsp hj hj2 hjj2
  rw [hsd]
  rw [← hqj2]
  exact hdates

/-- Witness for claim C2: The tie-break example series yields buy date 1 / sell
date 2 (the earliest of the two equal-profit windows), and the general
tie-break theorem applies to it. -/
theorem findOptimalTrade_tie_break_witness :
    find_optimal_trade tieSeries 1 4 = some ⟨1, 2, 10, 15, 5, 50⟩ ∧
    (∀ p q, p ∈ tieSeries.filter (fun p => inRange 1 4 p) →
      q ∈ tieSeries.filter (fun p => inRange 1 4 p) → p.date ≤ q.date →
      q.price - p.price = (⟨1, 2, 10, 15, 5, 50⟩ : TradeWindow).profit →
      (⟨1, 2, 10, 15, 5, 50⟩ : TradeWindow).sell_date ≤ q.date) :=
  ⟨by with_unfolding_all decide,
   findOptimalTrade_tie_break tieSeries 1 4 ⟨1, 2, 10, 15, 5, 50⟩
     (by with_unfolding_all decide) (by with_unfolding_all decide)⟩

/-- Claim C4: On a date-sorted series, `find_optimal_trade` returns `None`
exactly when the candidate subset has fewer than two rows or every
chronological pair profit is nonpositive; every returned trade window has
`buy_date ≤ sell_date` and a strictly positive profit equal to
`sell_price - buy_price`. -/
theorem findOptimalTrade_none_iff (df : List PricePoint) (s e : Nat)
    (hsorted : df.Pairwise (fun p q => p.date < q.date)) :
    (find_optimal_trade df s e = none ↔
      ((df.filter (fun p => inRange s e p)).length < 2 ∨
        ∀ p q, p ∈ df.filter (fun p => inRange s e p) →
          q ∈ df.filter (fun p => inRange s e p) → p.date ≤ q.date →
          q.price - p.price ≤ 0)) ∧
    (∀ tw : TradeWindow, find_optimal_trade df s e = some tw →
      tw.buy_date ≤ tw.sell_date ∧ tw.profit = tw.sell_price - tw.buy_price ∧
      0 < tw.profit) := by
  rw [find_eq_core]
  set period := df.filter (fun p => inRange s e p) with hperiod
  have hsp : period.Pairwise (fun p q => p.date < q.date) :=
    List.Pairwise.sublist (List.filter_sublist df) hsorted
  constructor
  · rw [find_core_none_iff]
    constructor
    · intro h
      rcases h with h | h
      · exact Or.inl h
      · by_cases hlen : period.length < 2
        · exact Or.inl hlen
        · refine Or.inr ?_
          have hne : period ≠ [] := by
            intro h0
            rw [h0] at hlen
            simp at hlen
          obtain ⟨_, _, hub, _⟩ := scanInv_runScan period hne
          intro p q hp hq hd
          obtain ⟨i2, j2, hi2, hj2, hij2, hpi2, hqj2⟩ := mem_pair_to_index hsp hp hq hd
          have hb := hub i2 j2 hi2 hj2 hij2
          rw [hpi2, hqj2] at hb
          linarith
    · intro h
      rcases h with h | h
      · exact Or.inl h
      · by_cases hlen : period.length < 2
        · exact Or.inl hlen
        · refine Or.inr ?_
          by_contra hmp
          have hposp : 0 < (runScan period).max_profit := lt_of_not_le hmp
          have hne : period ≠ [] := by
            intro h0
            rw [h0] at hlen
            simp at hlen
          obtain ⟨_, _, _, hbest⟩ := scanInv_runScan period hne
          obtain ⟨i, j, hi, hj, hij, _, hprofEq, _⟩ := hbest hposp
          have hzero := h (period[i]) (period[j]) (List.getElem_mem hi)
            (List.getElem_mem hj) (pairwise_date_mono hsp hi hj hij)
          rw [hprofEq] at hzero
          linarith
  · intro tw h
    obtain ⟨hlen2, hposp, i, j, hi, hj, hij, hbd, hsd, hbp, hsp2, hprofit, hattain,
            hminimal⟩ := find_core_some h
    refine ⟨?_, ?_, ?_⟩
    · rw [hbd, hsd]
      exact pairwise_date_mono hsp hi hj hij
    · rw [hprofit, hsp2, hbp]
      rw [hattain]
    · rw [hprofit]
      exact hposp

/-- Witness for claim C4: The monotonically declining example series yields no
opportunity, and the general theorem applies to it. -/
theorem findOptimalTrade_none_iff_witness :
    find_optimal_trade declineSeries 1 3 = none ∧
    ((find_optimal_trade declineSeries 1 3 = none ↔
      ((declineSeries.filter (fun p => inRange 1 3 p)).length < 2 ∨
        ∀ p q, p ∈ declineSeries.filter (fun p => inRange 1 3 p) →
          q ∈ declineSeries.filter (fun p => inRange 1 3 p) → p.date ≤ q.date →
          q.price - p.price ≤ 0)) ∧
    (∀ tw : TradeWindow, find_optimal_trade declineSeries 1 3 = some tw →
      tw.buy_date ≤ tw.sell_date ∧ tw.profit = tw.sell_price - tw.buy_price ∧
      0 < tw.profit)) :=
  ⟨by with_unfolding_all decide,
   findOptimalTrade_none_iff declineSeries 1 3 (by with_unfolding_all decide)⟩

/-- Claim C5: `find_optimal_trade` is pure: the caller's series after the
call has the same dates, prices and order as before (the in-place Date
conversion is the identity on day-granularity dates), and a repeated call
on the series left behind returns the same result. -/
theorem findOptimalTrade_pure (df : List PricePoint) (s e : Nat) :
    (find_optimal_trade_call df s e).2 = df ∧
    (find_optimal_trade_call ((find_optimal_trade_call df s e).2) s e).1 =
      (find_optimal_trade_call df s e).1 := by
  unfold find_optimal_trade_call
  rw [mutateDates_eq]
  exact ⟨rfl, rfl⟩

/-- Counterexample for claim C3: `find_optimal_trade` does not fail on an
out-of-range or inverted date range: with a series spanning dates 5..6,
bounds 0 and 10 (both outside the series extent) yield an ordinary trade
window, and the inverted bounds 10..0 yield an ordinary `None`. -/
theorem findOptimalTrade_no_rangeError :
    find_optimal_trade [⟨5, 1⟩, ⟨6, 3⟩] 0 10 = some ⟨5, 6, 1, 3, 2, 200⟩ ∧
    find_optimal_trade [⟨5, 1⟩, ⟨6, 3⟩] 10 0 = none := by
  with_unfolding_all decide

/-- Claim C3 as amended: `find_optimal_trade` performs no range validation:
an inverted range filters to an empty subset and returns `None`, and
bounds outside the series extent are silently clipped by the filter.
Range checking lives in the interactive caller: one round of
`get_date_input` accepts a parsed date exactly when it lies between the
given bounds, re-prompting (not raising) otherwise. -/
theorem findOptimalTrade_range_policy (df : List PricePoint) (s e : Nat)
    (d dmin dmax : Nat) :
    (e < s → find_optimal_trade df s e = none) ∧
    (date_accepted d dmin dmax = true ↔ (dmin ≤ d ∧ d ≤ dmax)) := by
  constructor
  · intro hes
    rw [find_eq_core]
    have hfil : df.filter (fun p => inRange s e p) = [] := by
      rw [List.filter_eq_nil_iff]
      intro p _
      unfold inRange
      simp only [Bool.and_eq_true, decide_eq_true_eq, not_and]
      intro h1 h2
      omega
    rw [hfil]
    rfl
  · unfold date_accepted
    simp only [Bool.and_eq_true, Bool.not_eq_true', decide_eq_false_iff_not]
    omega

/-- Witness for the amended claim C3: Applying the range-policy theorem at the
concrete inverted range 10..0 over the series spanning dates 5..6, and at
the concrete date 7 against the bounds 5..6. -/
theorem findOptimalTrade_range_policy_witness :
    find_optimal_trade [⟨5, 1⟩, ⟨6, 3⟩] 10 0 = none ∧
    (date_accepted 7 5 6 = true ↔ (5 ≤ 7 ∧ 7 ≤ 6)) :=
  ⟨(findOptimalTrade_range_policy [⟨5, 1⟩, ⟨6, 3⟩] 10 0 7 5 6).1
     (by with_unfolding_all decide),
   (findOptimalTrade_range_policy [⟨5, 1⟩, ⟨6, 3⟩] 10 0 7 5 6).2⟩

/-! ### Claims about the cached store -/

/-- Claim C6: For a validated ticker with an existing cache entry, a call
strictly inside the freshness window returns the stored series without
contacting the provider and leaves the cache untouched, while a call at or
past the window contacts the provider. -/
theorem get_cache_freshness (t : String) (ch : Int) (c : CacheMap) (now t0 : Int)
    (f : String → Option (List RawRow)) (pk : Bool) (stored : List PricePoint)
    (hvalid : (validate_ticker (t.toUpper.trim)).1 = true)
    (hentry : c (t.toUpper.trim) = some (t0, stored)) :
    (now - t0 < ch →
      get_stock_data t true ch c now f pk = ⟨stored, c, false⟩) ∧
    (ch ≤ now - t0 →
      (get_stock_data t true ch c now f pk).fetchInvoked = true) := by
  constructor
  · intro hfresh
    simp [get_stock_data, hvalid, hentry, hfresh]
  · intro hstale
    have hnf : ¬ now - t0 < ch := not_lt.mpr hstale
    simp only [get_stock_data, hvalid, hentry]
    rcases hf : f (t.toUpper.trim) with _ | rows
    · simp [hnf, hf]
    · simp only [hnf, hf]
      by_cases hcl : posFilter (dropna rows) = []
      · simp [hcl]
      · simp [hcl]

/-- Witness for claim C6: A cache entry for AAPL written at hour 0 with a
24-hour window: the call at hour 23 serves the cache without fetching,
the call at hour 25 contacts the provider. -/
theorem get_cache_freshness_witness :
    get_stock_data "AAPL" true 24 aaplCache 23 failFetch true =
      ⟨sampleSeries, aaplCache, false⟩ ∧
    (get_stock_data "AAPL" true 24 aaplCache 25 failFetch true).fetchInvoked = true :=
  ⟨(get_cache_freshness "AAPL" 24 aaplCache 23 0 failFetch true sampleSeries
      (by with_unfolding_all decide) (by with_unfolding_all decide)).1
      (by with_unfolding_all decide),
   (get_cache_freshness "AAPL" 24 aaplCache 25 0 failFetch true sampleSeries
      (by with_unfolding_all decide) (by with_unfolding_all decide)).2
      (by with_unfolding_all decide)⟩

/-- Claim C8: For a validated ticker with a stale cache entry, a refresh
whose fetch fails surfaces the failure (the empty frame, the code's
failure value) and leaves the cache — including the stale entry — exactly
as it was; a subsequent successful fetch against that untouched cache
returns the fresh normalized series and overwrites the entry. -/
theorem get_stale_on_failure (t : String) (ch : Int) (c : CacheMap)
    (now now2 t0 : Int) (f f2 : String → Option (List RawRow)) (pk : Bool)
    (stored : List PricePoint)
    (hvalid : (validate_ticker (t.toUpper.trim)).1 = true)
    (hentry : c (t.toUpper.trim) = some (t0, stored))
    (hstale : ch ≤ now - t0)
    (hfail : f (t.toUpper.trim) = none) :
    (get_stock_data t true ch c now f pk).series = [] ∧
    (get_stock_data t true ch c now f pk).cache2 = c ∧
    (get_stock_data t true ch c now f pk).fetchInvoked = true ∧
    (get_stock_data t true ch c now f pk).cache2 (t.toUpper.trim) =
      some (t0, stored) ∧
    (∀ rows2, f2 (t.toUpper.trim) = some rows2 →
      posFilter (dropna rows2) ≠ [] →
      ch ≤ now2 - t0 →
      (get_stock_data t true ch ((get_stock_data t true ch c now f pk).cache2)
          now2 f2 true).series = sortByDate (posFilter (dropna rows2)) ∧
      (get_stock_data t true ch ((get_stock_data t true ch c now f pk).cache2)
          now2 f2 true).cache2 (t.toUpper.trim) =
        some (now2, sortByDate (posFilter (dropna rows2)))) := by
  have hnf : ¬ now - t0 < ch := not_lt.mpr hstale
  have hout : get_stock_data t true ch c now f pk = ⟨[], c, true⟩ := by
    simp [get_stock_data, hvalid, hentry, hnf, hfail]
  rw [hout]
  refine ⟨rfl, rfl, rfl, hentry, ?_⟩
  intro rows2 hf2 hcl hstale2
  have hnf2 : ¬ now2 - t0 < ch := not_lt.mpr hstale2
  have hout2 : get_stock_data t true ch c now2 f2 true =
      ⟨sortByDate (posFilter (dropna rows2)),
       fun t2 => if t2 = t.toUpper.trim
         then some (now2, sortByDate (posFilter (dropna rows2)))
         else c t2,
       true⟩ := by
    simp [get_stock_data, hvalid, hentry, hnf2, hf2, hcl]
  rw [hout2]
  exact ⟨rfl, by simp⟩

/-- Witness for claim C8: AAPL cached at hour 0; the refresh at hour 25 fails
and the conclusion of the stale-on-failure theorem holds for it, with the
follow-up successful fetch taken at hour 49. -/
theorem get_stale_on_failure_witness :
    (get_stock_data "AAPL" true 24 aaplCache 25 failFetch true).series = [] ∧
    (get_stock_data "AAPL" true 24 aaplCache 25 failFetch true).cache2 = aaplCache ∧
    (get_stock_data "AAPL" true 24 aaplCache 25 failFetch true).fetchInvoked = true ∧
    (get_stock_data "AAPL" true 24 aaplCache 25 failFetch true).cache2
      ("AAPL".toUpper.trim) = some (0, sampleSeries) ∧
    (∀ rows2, okFetch ("AAPL".toUpper.trim) = some rows2 →
      posFilter (dropna rows2) ≠ [] →
      (24 : Int) ≤ 49 - 0 →
      (get_stock_data "AAPL" true 24
          ((get_stock_data "AAPL" true 24 aaplCache 25 failFetch true).cache2)
          49 okFetch true).series = sortByDate (posFilter (dropna rows2)) ∧
      (get_stock_data "AAPL" true 24
          ((get_stock_data "AAPL" true 24 aaplCache 25 failFetch true).cache2)
          49 okFetch true).cache2 ("AAPL".toUpper.trim) =
        some (49, sortByDate (posFilter (dropna rows2)))) :=
  get_stale_on_failure "AAPL" 24 aaplCache 25 49 0 failFetch okFetch true
    sampleSeries (by with_unfolding_all decide) (by with_unfolding_all decide)
    (by with_unfolding_all decide) (by with_unfolding_all decide)

/-- Counterexample for claim C9: Identifier validation is not the stated length
test: the three-space identifier is a non-empty string of at most 10
characters yet fails validation, and the 11-character identifier
`"ABCDEFGHIJ "` (10 letters plus a trailing space) is longer than 10
characters yet leads `get_stock_data` to contact the provider. -/
theorem validate_ticker_counterexample :
    ("   " : String) ≠ "" ∧ ("   " : String).length ≤ 10 ∧
    (validate_ticker "   ").1 = false ∧
    10 < ("ABCDEFGHIJ " : String).length ∧
    (get_stock_data "ABCDEFGHIJ " true 24 emptyCache 0 failFetch true).fetchInvoked
      = true := by
  with_unfolding_all decide

/-- Claim C9 as amended: `validate_ticker` accepts exactly the strings with
non-empty whitespace-stripped content and raw length at most 10;
`get_stock_data` uppercases and strips the identifier first and, when the
normalized identifier fails validation, returns the empty frame with the
cache untouched and without contacting the provider. -/
theorem validate_ticker_spec (t : String) (uc : Bool) (ch : Int) (c : CacheMap)
    (now : Int) (f : String → Option (List RawRow)) (pk : Bool) :
    ((validate_ticker t).1 = true ↔ (t.trim.length ≠ 0 ∧ t.length ≤ 10)) ∧
    ((validate_ticker (t.toUpper.trim)).1 = false →
      get_stock_data t uc ch c now f pk = ⟨[], c, false⟩) := by
  constructor
  · unfold validate_ticker
    by_cases h1 : t = "" ∨ t.trim.length = 0
    · rw [if_pos h1]
      constructor
      · intro h
        exact absurd h (by simp)
      · intro h
        exfalso
        rcases h1 with h1 | h1
        · subst h1
          have hz : ("" : String).trim.length = 0 := by with_unfolding_all decide
          exact h.1 hz
        · exact h.1 h1
    · rw [if_neg h1]
      push_neg at h1
      by_cases h2 : 10 < t.length
      · rw [if_pos h2]
        constructor
        · intro h
          exact absurd h (by simp)
        · intro h
          omega
      · rw [if_neg h2]
        constructor
        · intro _
          exact ⟨h1.2, by omega⟩
        · intro _
          rfl
  · intro hv
    simp [get_stock_data, hv]

/-- Witness for the amended claim C9: Applying the amended validation theorem to
the 11-character identifier `"ABCDEFGHIJK"`, whose normalized form fails
validation, so `get_stock_data` rejects it without fetching. -/
theorem validate_ticker_spec_witness :
    ((validate_ticker "ABCDEFGHIJK").1 = true ↔
      (("ABCDEFGHIJK" : String).trim.length ≠ 0 ∧
       ("ABCDEFGHIJK" : String).length ≤ 10)) ∧
    get_stock_data "ABCDEFGHIJK" true 24 emptyCache 0 failFetch true =
      ⟨[], emptyCache, false⟩ :=
  ⟨(validate_ticker_spec "ABCDEFGHIJK" true 24 emptyCache 0 failFetch true).1,
   (validate_ticker_spec "ABCDEFGHIJK" true 24 emptyCache 0 failFetch true).2
     (by with_unfolding_all decide)⟩

/-- Claim C10: `get_stock_data` depends on its identifier only through the
normalized (uppercased, stripped) form: identifiers with equal normalized
forms validate identically, share the cache entry and produce identical
outcomes. -/
theorem get_stock_data_norm_eq (t1 t2 : String) (uc : Bool) (ch : Int)
    (c : CacheMap) (now : Int) (f : String → Option (List RawRow)) (pk : Bool)
    (h : t1.toUpper.trim = t2.toUpper.trim) :
    get_stock_data t1 uc ch c now f pk = get_stock_data t2 uc ch c now f pk := by
  unfold get_stock_data
  rw [h]

/-- Witness for claim C10: `"aapl "` and `"AAPL"` normalize identically, and a
call with either behaves identically on the same cache. -/
theorem get_stock_data_norm_eq_witness :
    "aapl ".toUpper.trim = "AAPL".toUpper.trim ∧
    get_stock_data "aapl " true 24 aaplCache 23 failFetch true =
      get_stock_data "AAPL" true 24 aaplCache 23 failFetch true :=
  ⟨by with_unfolding_all decide,
   get_stock_data_norm_eq "aapl " "AAPL" true 24 aaplCache 23 failFetch true
     (by with_unfolding_all decide)⟩


/-- The rows surviving `dropna` and the positivity filter are exactly the
raw rows with a present, strictly positive Close. -/
theorem mem_cleaned_iff (rows : List RawRow) (x : PricePoint) :
    x ∈ posFilter (dropna rows) ↔
      (0 < x.price ∧ ∃ r ∈ rows, r.date = x.date ∧ r.close = some x.price) := by
  unfold posFilter dropna
  simp only [List.mem_filter, List.mem_filterMap, decide_eq_true_eq,
    Option.map_eq_some']
  constructor
  · rintro ⟨⟨r, hr, cl, hc, hmk⟩, hpos⟩
    refine ⟨hpos, r, hr, ?_, ?_⟩
    · rw [← hmk]
    · rw [hc, ← hmk]
  · rintro ⟨hpos, r, hr, hd, hc⟩
    refine ⟨⟨r, hr, x.price, hc, ?_⟩, hpos⟩
    rw [hd]

/-- Counterexample for claim C7: A successful fetch returning two rows that
share a date is handed back with both rows: the result of the call has
the date column `[1, 1]`, so the series is not deduplicated by date. -/
theorem get_normalization_counterexample :
    (get_stock_data "AAPL" true 24 emptyCache 0 dupFetch true).series.map
      (fun p => p.date) = [1, 1] ∧
    ¬ (get_stock_data "AAPL" true 24 emptyCache 0 dupFetch true).series.Pairwise
      (fun p q => p.date ≠ q.date) := by
  with_unfolding_all decide

/-- Claim C7 as amended: On a successful fetch (validated ticker, cache miss),
the returned series is the fetched rows with missing and non-positive
prices dropped, sorted ascending by date, duplicate dates retained (the
result is a permutation of the filtered rows, duplicates included); if
the filter leaves nothing, the call returns the empty frame and writes
nothing to the cache; otherwise the sorted series is written under the
normalized ticker (when persistence succeeds). -/
theorem get_normalization (t : String) (ch : Int) (c : CacheMap) (now : Int)
    (f : String → Option (List RawRow)) (pk : Bool) (rows : List RawRow)
    (hvalid : (validate_ticker (t.toUpper.trim)).1 = true)
    (hmiss : c (t.toUpper.trim) = none)
    (hfetch : f (t.toUpper.trim) = some rows) :
    ((get_stock_data t true ch c now f pk).series).Perm (posFilter (dropna rows)) ∧
    ((get_stock_data t true ch c now f pk).series).Pairwise
      (fun p q => p.date ≤ q.date) ∧
    (∀ x, x ∈ (get_stock_data t true ch c now f pk).series →
      0 < x.price ∧ ∃ r ∈ rows, r.date = x.date ∧ r.close = some x.price) ∧
    (∀ r ∈ rows, ∀ cl : Rat, r.close = some cl → 0 < cl →
      PricePoint.mk r.date cl ∈ (get_stock_data t true ch c now f pk).series) ∧
    (posFilter (dropna rows) = [] →
      (get_stock_data t true ch c now f pk).series = [] ∧
      (get_stock_data t true ch c now f pk).cache2 = c) ∧
    (posFilter (dropna rows) ≠ [] → pk = true →
      (get_stock_data t true ch c now f pk).cache2 (t.toUpper.trim) =
        some (now, sortByDate (posFilter (dropna rows)))) := by
  by_cases hcl : posFilter (dropna rows) = []
  · have hout : get_stock_data t true ch c now f pk = ⟨[], c, true⟩ := by
      simp [get_stock_data, hvalid, hmiss, hfetch, hcl]
    rw [hout]
    refine ⟨by rw [hcl], List.Pairwise.nil, ?_, ?_, fun _ => ⟨rfl, rfl⟩,
      fun hne => absurd hcl hne⟩
    · intro x hx
      exact absurd hx (List.not_mem_nil x)
    · intro r hr cl hc hpos
      exfalso
      have hmem : PricePoint.mk r.date cl ∈ posFilter (dropna rows) :=
        (mem_cleaned_iff rows (PricePoint.mk r.date cl)).mpr ⟨hpos, r, hr, rfl, hc⟩
      rw [hcl] at hmem
      exact absurd hmem (List.not_mem_nil _)
  · have hout : get_stock_data t true ch c now f pk =
        ⟨sortByDate (posFilter (dropna rows)),
         if pk then
           (fun t2 => if t2 = t.toUpper.trim
             then some (now, sortByDate (posFilter (dropna rows)))
             else c t2)
         else c,
         true⟩ := by
      simp [get_stock_data, hvalid, hmiss, hfetch, hcl]
    rw [hout]
    have hperm : (sortByDate (posFilter (dropna rows))).Perm
        (posFilter (dropna rows)) := List.perm_insertionSort _ _
    refine ⟨hperm, List.sorted_insertionSort _ _, ?_, ?_, fun h0 => absurd h0 hcl, ?_⟩
    · intro x hx
      exact (mem_cleaned_iff rows x).mp (hperm.mem_iff.mp hx)
    · intro r hr cl hc hpos
      refine hperm.mem_iff.mpr ?_
      exact (mem_cleaned_iff rows (PricePoint.mk r.date cl)).mpr ⟨hpos, r, hr, rfl, hc⟩
    · intro _ hpk
      subst hpk
      simp

/-- Witness for the amended claim C7: Applying the amended normalization theorem to
a concrete fetch of three rows arriving out of order. -/
theorem get_normalization_witness :
    ((get_stock_data "AAPL" true 24 emptyCache 0 okFetch true).series).Perm
      (posFilter (dropna [⟨2, some 12⟩, ⟨1, some 10⟩, ⟨3, some 11⟩])) ∧
    ((get_stock_data "AAPL" true 24 emptyCache 0 okFetch true).series).Pairwise
      (fun p q => p.date ≤ q.date) ∧
    (∀ x, x ∈ (get_stock_data "AAPL" true 24 emptyCache 0 okFetch true).series →
      0 < x.price ∧ ∃ r ∈ ([⟨2, some 12⟩, ⟨1, some 10⟩, ⟨3, some 11⟩] : List RawRow),
        r.date = x.date ∧ r.close = some x.price) ∧
    (∀ r ∈ ([⟨2, some 12⟩, ⟨1, some 10⟩, ⟨3, some 11⟩] : List RawRow),
      ∀ cl : Rat, r.close = some cl → 0 < cl →
      PricePoint.mk r.date cl ∈
        (get_stock_data "AAPL" true 24 emptyCache 0 okFetch true).series) ∧
    (posFilter (dropna [⟨2, some 12⟩, ⟨1, some 10⟩, ⟨3, some 11⟩]) = [] →
      (get_stock_data "AAPL" true 24 emptyCache 0 okFetch true).series = [] ∧
      (get_stock_data "AAPL" true 24 emptyCache 0 okFetch true).cache2 = emptyCache) ∧
    (posFilter (dropna [⟨2, some 12⟩, ⟨1, some 10⟩, ⟨3, some 11⟩]) ≠ [] →
      true = true →
      (get_stock_data "AAPL" true 24 emptyCache 0 okFetch true).cache2
        ("AAPL".toUpper.trim) =
        some (0, sortByDate
          (posFilter (dropna [⟨2, some 12⟩, ⟨1, some 10⟩, ⟨3, some 11⟩])))) :=
  get_normalization "AAPL" 24 emptyCache 0 okFetch true
    [⟨2, some 12⟩, ⟨1, some 10⟩, ⟨3, some 11⟩]
    (by with_unfolding_all decide) (by with_unfolding_all decide)
    (by with_unfolding_all decide)
